import Mathlib

/-!
Verification of the stochastic-model and Monte-Carlo pricing routines of the
quant-finance-toolkit repository.  Each numpy routine is embedded shallowly:
float arithmetic becomes real arithmetic, the stream of standard-normal draws
becomes an explicit argument `z : ℕ → ℝ` (a draw from `normal(m, s)` is
`m + s * z i`), and numpy arrays become lists of reals.
-/

open Real

/-- Embedding of numpy.linspace(a, b, m): m evenly spaced points from a to b,
endpoint included.  For m = 1 numpy returns [a]; the real division by zero in
that case yields a as well. -/
noncomputable def linspace (a b : ℝ) (m : ℕ) : List ℝ :=
  (List.range m).map fun i : ℕ => a + (i : ℝ) * (b - a) / ((m : ℝ) - 1)

/-- Embedding of wiener_process from the packaged module
(models/stochastic.py).  Returns (t, w) with t = linspace(x0, n, n+1),
w[0] = 0 and w[i] the cumulative sum of the first i draws from
normal(0, sqrt dt), i.e. increments sqrt(dt) * z_j. -/
noncomputable def wiener_process (dt x0 : ℝ) (n : ℕ) (z : ℕ → ℝ) :
    List ℝ × List ℝ :=
  (linspace x0 (n : ℝ) (n + 1),
   (List.range (n + 1)).map fun i => ∑ j ∈ Finset.range i, Real.sqrt dt * z j)

/-- Embedding of wiener_process from the legacy script 06_wienerProcess.py.
Identical to the packaged version except the increments are drawn from
normal(1, sqrt dt), i.e. each increment is 1 + sqrt(dt) * z_j. -/
noncomputable def wiener_process_legacy (dt x0 : ℝ) (n : ℕ) (z : ℕ → ℝ) :
    List ℝ × List ℝ :=
  (linspace x0 (n : ℝ) (n + 1),
   (List.range (n + 1)).map fun i =>
     ∑ j ∈ Finset.range i, (1 + Real.sqrt dt * z j))

lemma getD_map_range {α : Type} (m i : ℕ) (f : ℕ → α) (d : α) (h : i < m) :
    (((List.range m).map f).getD i d) = f i := by
  rw [List.getD_eq_getElem?_getD, List.getElem?_map, List.getElem?_range h]
  rfl

lemma length_map_range {α : Type} (m : ℕ) (f : ℕ → α) :
    ((List.range m).map f).length = m := by
  rw [List.length_map, List.length_range]

lemma linspace_length (a b : ℝ) (m : ℕ) : (linspace a b m).length = m := by
  unfold linspace; exact length_map_range m _

lemma linspace_getD (a b : ℝ) (m i : ℕ) (h : i < m) :
    (linspace a b m).getD i 0 = a + i * (b - a) / ((m : ℝ) - 1) := by
  unfold linspace; exact getD_map_range m i _ 0 h

/-- C2: given the same stream of standard-normal draws, the legacy
wiener_process (06_wienerProcess.py) has step increments 1 + sqrt(dt) * z_i,
the packaged wiener_process has step increments sqrt(dt) * z_i, and for every
step index i with 1 ≤ i ≤ n the legacy path value exceeds the packaged path
value by exactly i. -/
theorem wiener_variants_disagree (dt x0 : ℝ) (n : ℕ) (z : ℕ → ℝ) (i : ℕ)
    (h1 : 1 ≤ i) (h2 : i ≤ n) :
    (wiener_process_legacy dt x0 n z).2.getD i 0 -
        (wiener_process_legacy dt x0 n z).2.getD (i - 1) 0 =
      1 + Real.sqrt dt * z (i - 1) ∧
    (wiener_process dt x0 n z).2.getD i 0 -
        (wiener_process dt x0 n z).2.getD (i - 1) 0 =
      Real.sqrt dt * z (i - 1) ∧
    (wiener_process_legacy dt x0 n z).2.getD i 0 =
      (wiener_process dt x0 n z).2.getD i 0 + i := by
  obtain ⟨k, rfl⟩ : ∃ k, i = k + 1 := ⟨i - 1, (Nat.succ_pred_eq_of_pos h1).symm⟩
  have hk1 : k + 1 < n + 1 := by omega
  have hk0 : k < n + 1 := by omega
  unfold wiener_process wiener_process_legacy
  simp only [getD_map_range _ _ _ _ hk1, getD_map_range _ _ _ _ hk0,
    Nat.add_sub_cancel]
  refine ⟨?_, ?_, ?_⟩
  · rw [Finset.sum_range_succ]; ring
  · rw [Finset.sum_range_succ]; ring
  · rw [Finset.sum_add_distrib, Finset.sum_const, Finset.card_range,
      nsmul_eq_mul, mul_one]
    push_cast
    ring

/-- Witness for C2 at dt = 1, x0 = 0, n = 2, z ≡ 0, i = 1. -/
theorem wiener_variants_disagree_witness :
    (wiener_process_legacy 1 0 2 (fun _ => 0)).2.getD 1 0 -
        (wiener_process_legacy 1 0 2 (fun _ => 0)).2.getD 0 0 = 1 ∧
    (wiener_process 1 0 2 (fun _ => 0)).2.getD 1 0 -
        (wiener_process 1 0 2 (fun _ => 0)).2.getD 0 0 = 0 ∧
    (wiener_process_legacy 1 0 2 (fun _ => 0)).2.getD 1 0 =
      (wiener_process 1 0 2 (fun _ => 0)).2.getD 1 0 + 1 := by
  have h := wiener_variants_disagree 1 0 2 (fun _ => 0) 1 (by norm_num)
    (by norm_num)
  norm_num at h
  exact h

/-- C10: in both wiener_process implementations the returned path starts at 0
regardless of x0, the path values do not depend on x0 at all, the time grid is
linspace(x0, n, n+1), and (for n ≥ 1) the grid starts at x0 and ends at the
step count n. -/
theorem wiener_x0_only_time_grid (dt x0 x0b : ℝ) (n : ℕ) (z : ℕ → ℝ) :
    (wiener_process dt x0 n z).2.getD 0 0 = 0 ∧
    (wiener_process_legacy dt x0 n z).2.getD 0 0 = 0 ∧
    (wiener_process dt x0 n z).1 = linspace x0 (n : ℝ) (n + 1) ∧
    (wiener_process_legacy dt x0 n z).1 = linspace x0 (n : ℝ) (n + 1) ∧
    (wiener_process dt x0 n z).2 = (wiener_process dt x0b n z).2 ∧
    (wiener_process_legacy dt x0 n z).2 =
      (wiener_process_legacy dt x0b n z).2 ∧
    (1 ≤ n → (wiener_process dt x0 n z).1.getD 0 0 = x0 ∧
      (wiener_process dt x0 n z).1.getD n 0 = n) := by
  have h0 : (0 : ℕ) < n + 1 := Nat.succ_pos n
  refine ⟨?_, ?_, rfl, rfl, rfl, rfl, fun hn => ⟨?_, ?_⟩⟩
  · unfold wiener_process
    rw [getD_map_range _ _ _ _ h0]
    simp
  · unfold wiener_process_legacy
    rw [getD_map_range _ _ _ _ h0]
    simp
  · unfold wiener_process
    rw [linspace_getD _ _ _ _ h0]
    norm_num
  · unfold wiener_process
    rw [linspace_getD _ _ _ _ (Nat.lt_succ_self n)]
    have hn0 : (n : ℝ) ≠ 0 := Nat.cast_ne_zero.mpr (by omega)
    push_cast
    field_simp

/-- Witness for C10 at dt = 1, x0 = 5, x0b = 7, n = 2, z ≡ 0. -/
theorem wiener_x0_only_time_grid_witness :
    (wiener_process 1 5 2 (fun _ => 0)).2.getD 0 0 = 0 ∧
    (wiener_process_legacy 1 5 2 (fun _ => 0)).2.getD 0 0 = 0 ∧
    (wiener_process 1 5 2 (fun _ => 0)).1 = linspace 5 2 3 ∧
    (wiener_process_legacy 1 5 2 (fun _ => 0)).1 = linspace 5 2 3 ∧
    (wiener_process 1 5 2 (fun _ => 0)).2 = (wiener_process 1 7 2 (fun _ => 0)).2 ∧
    (wiener_process_legacy 1 5 2 (fun _ => 0)).2 =
      (wiener_process_legacy 1 7 2 (fun _ => 0)).2 ∧
    (wiener_process 1 5 2 (fun _ => 0)).1.getD 0 0 = 5 ∧
    (wiener_process 1 5 2 (fun _ => 0)).1.getD 2 0 = 2 := by
  have h := wiener_x0_only_time_grid 1 5 7 2 (fun _ => 0)
  obtain ⟨h1, h2, h3, h4, h5, h6, h7⟩ := h
  have h8 := h7 (by norm_num)
  norm_num at h1 h2 h3 h4 h8 ⊢
  exact ⟨h1, h2, h3, h4, h5, h6, h8.1, h8.2⟩

/-- Embedding of simulate_gbm (models/stochastic.py and 07_gbm.py).  Note the
source builds t = linspace(0, T, N) with N points (not N+1), uses dt = T/N,
and S_i = s0 * exp((mu - sigma^2/2) * t_i + sigma * W_i) where W_i is the
cumulative sum of the first i+1 standard-normal draws scaled by sqrt(dt). -/
noncomputable def simulate_gbm (s0 T : ℝ) (N : ℕ) (mu sigma : ℝ)
    (z : ℕ → ℝ) : List ℝ × List ℝ :=
  (linspace 0 T N,
   (List.range N).map fun i =>
     s0 * Real.exp ((mu - 0.5 * sigma ^ 2) * ((linspace 0 T N).getD i 0) +
       sigma * ((∑ j ∈ Finset.range (i + 1), z j) * Real.sqrt (T / N))))

/-- The Euler-Maruyama recurrence shared by vasicek_model and
monte_carlo_bond_pricing (models/vasicek.py): rates[0] = r0 and
rates[i+1] = rates[i] + kappa * (theta - rates[i]) * dt + sigma * sqrt(dt) * z_i. -/
noncomputable def vasicekRate (r0 kappa theta sigma dt : ℝ) (z : ℕ → ℝ) :
    ℕ → ℝ
  | 0 => r0
  | i + 1 =>
    vasicekRate r0 kappa theta sigma dt z i +
      (kappa * (theta - vasicekRate r0 kappa theta sigma dt z i) * dt +
        sigma * Real.sqrt dt * z i)

/-- Embedding of vasicek_model (models/vasicek.py and 14_vasicekModel.py):
returns t = linspace(0, T, N+1) and the list of N+1 rates produced by the
recurrence with dt = T/N, one fresh draw per step. -/
noncomputable def vasicek_model (r0 kappa theta sigma T : ℝ) (N : ℕ)
    (z : ℕ → ℝ) : List ℝ × List ℝ :=
  (linspace 0 T (N + 1),
   (List.range (N + 1)).map (vasicekRate r0 kappa theta sigma (T / N) z))

/-- Embedding of monte_carlo_bond_pricing (models/vasicek.py and
15_bondPricingVasicek.py): each of num_simulations paths has num_points + 1
rate points (r0 plus num_points steps, dt = T/num_points); the price is
x times the mean over simulations of exp(-(sum of the rate points) * dt). -/
noncomputable def monte_carlo_bond_pricing (x r0 kappa theta sigma T : ℝ)
    (num_simulations num_points : ℕ) (z : ℕ → ℕ → ℝ) : ℝ :=
  x * ((∑ s ∈ Finset.range num_simulations,
    Real.exp (-((∑ i ∈ Finset.range (num_points + 1),
      vasicekRate r0 kappa theta sigma (T / (num_points : ℝ)) (z s) i) *
        (T / (num_points : ℝ))))) / (num_simulations : ℝ))

/-- C8: for every s0 > 0 and any T, N, mu, sigma and draw sequence, every
value of the price path returned by simulate_gbm is strictly positive
(each value is s0 times an exponential). -/
theorem gbm_path_positive (s0 T : ℝ) (N : ℕ) (mu sigma : ℝ) (z : ℕ → ℝ)
    (hs0 : 0 < s0) (i : ℕ) (hi : i < N) :
    0 < (simulate_gbm s0 T N mu sigma z).2.getD i 0 := by
  unfold simulate_gbm
  rw [getD_map_range _ _ _ _ hi]
  exact mul_pos hs0 (Real.exp_pos _)

/-- Witness for C8 at s0 = 1, T = 1, N = 2, mu = 0, sigma = 0, z ≡ 0, i = 0. -/
theorem gbm_path_positive_witness :
    (0 : ℝ) < 1 ∧ 0 < (simulate_gbm 1 1 2 0 0 (fun _ => 0)).2.getD 0 0 :=
  ⟨by norm_num,
   gbm_path_positive 1 1 2 0 0 (fun _ => 0) (by norm_num) 0 (by norm_num)⟩

/-- C9: vasicek_model starts at r0 and follows the exact Euler-Maruyama
recurrence rates[i+1] = rates[i] + kappa * (theta - rates[i]) * dt +
sigma * sqrt(dt) * z_i with dt = T/N, one fresh draw per step; the equality is
exact, so no floor at zero is applied and negative values pass through
unchanged. -/
theorem vasicek_model_recurrence (r0 kappa theta sigma T : ℝ) (N : ℕ)
    (z : ℕ → ℝ) (hkappa : 0 ≤ kappa) (hsigma : 0 ≤ sigma) (hT : 0 < T)
    (hN : 1 ≤ N) :
    (vasicek_model r0 kappa theta sigma T N z).2.getD 0 0 = r0 ∧
    ∀ i, i < N →
      (vasicek_model r0 kappa theta sigma T N z).2.getD (i + 1) 0 =
        (vasicek_model r0 kappa theta sigma T N z).2.getD i 0 +
          (kappa *
              (theta - (vasicek_model r0 kappa theta sigma T N z).2.getD i 0) *
              (T / (N : ℝ)) +
            sigma * Real.sqrt (T / (N : ℝ)) * z i) := by
  unfold vasicek_model
  constructor
  · rw [getD_map_range _ _ _ _ (Nat.succ_pos N)]
    rfl
  · intro i hi
    rw [getD_map_range _ _ _ _ (by omega : i + 1 < N + 1),
      getD_map_range _ _ _ _ (by omega : i < N + 1)]
    rfl

/-- Witness for C9 at r0 = 1, kappa = 1, theta = 2, sigma = 1, T = 1, N = 2,
z ≡ 0, recurrence instance i = 0. -/
theorem vasicek_model_recurrence_witness :
    (vasicek_model 1 1 2 1 1 2 (fun _ => 0)).2.getD 0 0 = 1 ∧
    (vasicek_model 1 1 2 1 1 2 (fun _ => 0)).2.getD 1 0 =
      (vasicek_model 1 1 2 1 1 2 (fun _ => 0)).2.getD 0 0 +
        (1 * (2 - (vasicek_model 1 1 2 1 1 2 (fun _ => 0)).2.getD 0 0) *
            (1 / 2) +
          1 * Real.sqrt (1 / 2) * 0) := by
  have h := vasicek_model_recurrence 1 1 2 1 1 2 (fun _ => 0) (by norm_num)
    (by norm_num) (by norm_num) (by norm_num)
  have h2 := h.2 0 (by norm_num)
  norm_num at h2 ⊢
  exact ⟨h.1, h2⟩

/-- Counterexample for C1: with N = 3 steps, simulate_gbm returns a price path
of 3 values, not N + 1 = 4, because the source builds linspace(0, T, N) and
draws only N normals. -/
theorem gbm_path_length_counterexample :
    (simulate_gbm 100 1 3 (1 / 10) (1 / 20) (fun _ => 0)).2.length = 3 ∧
    (simulate_gbm 100 1 3 (1 / 10) (1 / 20) (fun _ => 0)).2.length ≠ 3 + 1 := by
  have h : (simulate_gbm 100 1 3 (1 / 10) (1 / 20) (fun _ => 0)).2.length = 3 := by
    unfold simulate_gbm
    exact length_map_range 3 _
  exact ⟨h, by rw [h]; norm_num⟩

/-- C1 amended: vasicek_model returns N+1 time points and N+1 rates with the
grid running from 0 to T inclusive (for N ≥ 1), while simulate_gbm returns
only N time points and N prices, on linspace(0, T, N) which still starts at 0
(for N ≥ 1) and ends at T (for N ≥ 2). -/
theorem path_generator_sizes (s0 T mu sigma r0 kappa theta sigmav : ℝ)
    (N : ℕ) (z : ℕ → ℝ) :
    (vasicek_model r0 kappa theta sigmav T N z).1.length = N + 1 ∧
    (vasicek_model r0 kappa theta sigmav T N z).2.length = N + 1 ∧
    (vasicek_model r0 kappa theta sigmav T N z).1.getD 0 0 = 0 ∧
    (1 ≤ N → (vasicek_model r0 kappa theta sigmav T N z).1.getD N 0 = T) ∧
    (simulate_gbm s0 T N mu sigma z).1.length = N ∧
    (simulate_gbm s0 T N mu sigma z).2.length = N ∧
    (1 ≤ N → (simulate_gbm s0 T N mu sigma z).1.getD 0 0 = 0) ∧
    (2 ≤ N → (simulate_gbm s0 T N mu sigma z).1.getD (N - 1) 0 = T) := by
  unfold vasicek_model simulate_gbm
  refine ⟨linspace_length _ _ _, length_map_range _ _, ?_, ?_,
    linspace_length _ _ _, length_map_range _ _, ?_, ?_⟩
  · rw [linspace_getD _ _ _ _ (Nat.succ_pos N)]
    norm_num
  · intro hN
    rw [linspace_getD _ _ _ _ (Nat.lt_succ_self N)]
    have hn0 : (N : ℝ) ≠ 0 := Nat.cast_ne_zero.mpr (by omega)
    push_cast
    field_simp
  · intro hN
    rw [linspace_getD _ _ _ _ (by omega : 0 < N)]
    norm_num
  · intro hN
    rw [linspace_getD _ _ _ _ (by omega : N - 1 < N)]
    have hc : ((N - 1 : ℕ) : ℝ) = (N : ℝ) - 1 := by
      push_cast [Nat.cast_sub (by omega : 1 ≤ N)]
      ring
    have hn1 : (N : ℝ) - 1 ≠ 0 := by
      have : (2 : ℝ) ≤ (N : ℝ) := by exact_mod_cast hN
      linarith
    rw [hc]
    field_simp

/-- Witness for C1 amended at N = 2 and concrete parameters. -/
theorem path_generator_sizes_witness :
    (vasicek_model 1 1 2 1 3 2 (fun _ => 0)).1.length = 3 ∧
    (vasicek_model 1 1 2 1 3 2 (fun _ => 0)).2.length = 3 ∧
    (vasicek_model 1 1 2 1 3 2 (fun _ => 0)).1.getD 0 0 = 0 ∧
    (vasicek_model 1 1 2 1 3 2 (fun _ => 0)).1.getD 2 0 = 3 ∧
    (simulate_gbm 5 3 2 0 1 (fun _ => 0)).1.length = 2 ∧
    (simulate_gbm 5 3 2 0 1 (fun _ => 0)).2.length = 2 ∧
    (simulate_gbm 5 3 2 0 1 (fun _ => 0)).1.getD 0 0 = 0 ∧
    (simulate_gbm 5 3 2 0 1 (fun _ => 0)).1.getD 1 0 = 3 := by
  have h := path_generator_sizes 5 3 0 1 1 1 2 1 2 (fun _ => 0)
  exact ⟨h.1, h.2.1, h.2.2.1, h.2.2.2.1 (by norm_num), h.2.2.2.2.1,
    h.2.2.2.2.2.1, h.2.2.2.2.2.2.1 (by norm_num),
    h.2.2.2.2.2.2.2 (by norm_num)⟩

/-- C4 failing input: with s0 = 100, T = 1, N = 100, mu = 1/10,
sigma = 1/20 and first draw z_1 = 1, the first point of the simulate_gbm path
sits at time t = 0 but its value is 100 * exp(1/200), not 100: the source
multiplies the first draw into S[0] instead of starting the path at s0, even
though its own docstring asserts s[0] == 100. -/
theorem gbm_initial_value_failing :
    (simulate_gbm 100 1 100 (1 / 10) (1 / 20) (fun _ => 1)).1.getD 0 0 = 0 ∧
    (simulate_gbm 100 1 100 (1 / 10) (1 / 20) (fun _ => 1)).2.getD 0 0 =
      100 * Real.exp (1 / 200) ∧
    (simulate_gbm 100 1 100 (1 / 10) (1 / 20) (fun _ => 1)).2.getD 0 0 ≠ 100 := by
  have h0 : (0 : ℕ) < 100 := by norm_num
  have hsq : Real.sqrt ((1 : ℝ) / 100) = 1 / 10 := by
    rw [show (1 : ℝ) / 100 = (1 / 10) ^ 2 by norm_num]
    exact Real.sqrt_sq (by norm_num)
  have ht : (simulate_gbm 100 1 100 (1 / 10) (1 / 20) (fun _ => 1)).1.getD 0 0
      = 0 := by
    unfold simulate_gbm
    rw [linspace_getD _ _ _ _ h0]
    norm_num
  have hv : (simulate_gbm 100 1 100 (1 / 10) (1 / 20) (fun _ => 1)).2.getD 0 0
      = 100 * Real.exp (1 / 200) := by
    unfold simulate_gbm
    rw [getD_map_range _ _ _ _ h0, linspace_getD _ _ _ _ h0]
    norm_num [Finset.sum_range_one, hsq]
  refine ⟨ht, hv, ?_⟩
  rw [hv]
  have hexp : 1 < Real.exp (1 / 200) :=
    Real.one_lt_exp_iff.mpr (by norm_num)
  nlinarith

/-- Counterexample for C3: at sigma = -1 (with T = 2 > 0) no configuration
error is raised; simulate_gbm computes and returns the full 3-point price
path, vasicek_model returns all 4 rates, and monte_carlo_bond_pricing returns
a numeric price. -/
theorem no_validation_counterexample :
    (simulate_gbm 100 2 3 (1 / 10) (-1) (fun _ => 0)).2.length = 3 ∧
    (vasicek_model 1 1 1 (-1) 2 3 (fun _ => 0)).2.length = 4 ∧
    0 < monte_carlo_bond_pricing 1000 (1 / 100) (1 / 10) (1 / 100) (-1) 1 1 1
      (fun _ _ => 0) := by
  refine ⟨?_, ?_, ?_⟩
  · unfold simulate_gbm
    exact length_map_range 3 _
  · unfold vasicek_model
    exact length_map_range 4 _
  · unfold monte_carlo_bond_pricing
    rw [Finset.sum_range_one]
    positivity

/-- C3 amended: simulate_gbm, vasicek_model and monte_carlo_bond_pricing
perform no validation of sigma or T: when sigma < 0 or T ≤ 0 they still run
the whole simulation and return full-size results (and a positive bond price
when x > 0 and at least one simulation is requested); no error is ever
reported. -/
theorem no_validation_runs_fully (s0 T mu sigma r0 kappa theta x : ℝ)
    (N num_simulations num_points : ℕ) (z : ℕ → ℝ) (zz : ℕ → ℕ → ℝ)
    (hbad : sigma < 0 ∨ T ≤ 0) :
    (simulate_gbm s0 T N mu sigma z).2.length = N ∧
    (vasicek_model r0 kappa theta sigma T N z).2.length = N + 1 ∧
    (0 < x → 1 ≤ num_simulations →
      0 < monte_carlo_bond_pricing x r0 kappa theta sigma T num_simulations
        num_points zz) := by
  refine ⟨?_, ?_, fun hx hns => ?_⟩
  · unfold simulate_gbm
    exact length_map_range N _
  · unfold vasicek_model
    exact length_map_range (N + 1) _
  · unfold monte_carlo_bond_pricing
    have hsum : 0 < ∑ s ∈ Finset.range num_simulations,
        Real.exp (-((∑ i ∈ Finset.range (num_points + 1),
          vasicekRate r0 kappa theta sigma (T / (num_points : ℝ)) (zz s) i) *
            (T / (num_points : ℝ)))) :=
      Finset.sum_pos (fun s _ => Real.exp_pos _)
        (Finset.nonempty_range_iff.mpr (by omega))
    have hden : (0 : ℝ) < (num_simulations : ℝ) := by
      exact_mod_cast Nat.lt_of_lt_of_le Nat.zero_lt_one hns
    exact mul_pos hx (div_pos hsum hden)

/-- Witness for C3 amended at sigma = -1 and concrete parameters. -/
theorem no_validation_runs_fully_witness :
    (simulate_gbm 5 1 2 0 (-1) (fun _ => 0)).2.length = 2 ∧
    (vasicek_model 1 1 1 (-1) 1 2 (fun _ => 0)).2.length = 3 ∧
    0 < monte_carlo_bond_pricing 10 1 1 1 (-1) 1 2 2 (fun _ _ => 0) := by
  have h := no_validation_runs_fully 5 1 0 (-1) 1 1 1 10 2 2 2 (fun _ => 0)
    (fun _ _ => 0) (Or.inl (by norm_num))
  exact ⟨h.1, h.2.1, h.2.2 (by norm_num) (by norm_num)⟩

/-- Embedding of OptionPriceMonteCarlo.call_option_price
(pricing/options.py): per trial the payoff is max(0, S_T - E) with
S_T = S0 * exp((rf - sigma^2/2) * T + sigma * sqrt(T) * z_i) (the amax over
the zero column and the payoff column), averaged over iterations and
discounted by exp(-rf * T). -/
noncomputable def OptionPriceMonteCarlo.call_option_price
    (S0 E T rf sigma : ℝ) (iterations : ℕ) (z : ℕ → ℝ) : ℝ :=
  ((∑ i ∈ Finset.range iterations,
      max 0 (S0 * Real.exp ((rf - 0.5 * sigma ^ 2) * T +
        sigma * Real.sqrt T * z i) - E)) / (iterations : ℝ)) *
    Real.exp (-(rf * T))

/-- Embedding of OptionPriceMonteCarlo.put_option_price (pricing/options.py):
same as the call but with per-trial payoff max(0, E - S_T). -/
noncomputable def OptionPriceMonteCarlo.put_option_price
    (S0 E T rf sigma : ℝ) (iterations : ℕ) (z : ℕ → ℝ) : ℝ :=
  ((∑ i ∈ Finset.range iterations,
      max 0 (E - S0 * Real.exp ((rf - 0.5 * sigma ^ 2) * T +
        sigma * Real.sqrt T * z i))) / (iterations : ℝ)) *
    Real.exp (-(rf * T))

/-- C6: the Monte Carlo call price is exp(-rf T) times the average of the
clipped payoffs max(0, S_T - E), the put price is exp(-rf T) times the
average of max(0, E - S_T), and both are nonnegative. -/
theorem option_price_mc_formula_nonneg (S0 E T rf sigma : ℝ)
    (iterations : ℕ) (z : ℕ → ℝ) (hiter : 1 ≤ iterations) :
    OptionPriceMonteCarlo.call_option_price S0 E T rf sigma iterations z =
      Real.exp (-(rf * T)) *
        ((∑ i ∈ Finset.range iterations,
          max 0 (S0 * Real.exp ((rf - 0.5 * sigma ^ 2) * T +
            sigma * Real.sqrt T * z i) - E)) / (iterations : ℝ)) ∧
    OptionPriceMonteCarlo.put_option_price S0 E T rf sigma iterations z =
      Real.exp (-(rf * T)) *
        ((∑ i ∈ Finset.range iterations,
          max 0 (E - S0 * Real.exp ((rf - 0.5 * sigma ^ 2) * T +
            sigma * Real.sqrt T * z i))) / (iterations : ℝ)) ∧
    0 ≤ OptionPriceMonteCarlo.call_option_price S0 E T rf sigma iterations z ∧
    0 ≤ OptionPriceMonteCarlo.put_option_price S0 E T rf sigma iterations z := by
  unfold OptionPriceMonteCarlo.call_option_price
    OptionPriceMonteCarlo.put_option_price
  refine ⟨mul_comm _ _, mul_comm _ _, ?_, ?_⟩ <;>
    exact mul_nonneg
      (div_nonneg (Finset.sum_nonneg fun i _ => le_max_left 0 _)
        (Nat.cast_nonneg _))
      (Real.exp_pos _).le

/-- Witness for C6 at S0 = 1, E = 1, T = 1, rf = 0, sigma = 0,
iterations = 1, z ≡ 0. -/
theorem option_price_mc_formula_nonneg_witness :
    OptionPriceMonteCarlo.call_option_price 1 1 1 0 0 1 (fun _ => 0) =
      Real.exp (-(0 * 1)) *
        ((∑ i ∈ Finset.range 1,
          max 0 (1 * Real.exp ((0 - 0.5 * 0 ^ 2) * 1 +
            0 * Real.sqrt 1 * 0) - 1)) / ((1 : ℕ) : ℝ)) ∧
    OptionPriceMonteCarlo.put_option_price 1 1 1 0 0 1 (fun _ => 0) =
      Real.exp (-(0 * 1)) *
        ((∑ i ∈ Finset.range 1,
          max 0 (1 - 1 * Real.exp ((0 - 0.5 * 0 ^ 2) * 1 +
            0 * Real.sqrt 1 * 0))) / ((1 : ℕ) : ℝ)) ∧
    0 ≤ OptionPriceMonteCarlo.call_option_price 1 1 1 0 0 1 (fun _ => 0) ∧
    0 ≤ OptionPriceMonteCarlo.put_option_price 1 1 1 0 0 1 (fun _ => 0) :=
  option_price_mc_formula_nonneg 1 1 1 0 0 1 (fun _ => 0) (by norm_num)

/-- C7: monte_carlo_bond_pricing is x times the mean over simulations of
exp(-(sum of the num_points + 1 rate points) * dt) with dt = T/num_points,
where each simulated rate path starts at r0 and follows the Vasicek
recurrence; for x > 0 and at least one simulation the price is strictly
positive. -/
theorem monte_carlo_bond_pricing_positive (x r0 kappa theta sigma T : ℝ)
    (num_simulations num_points : ℕ) (zz : ℕ → ℕ → ℝ) (hx : 0 < x)
    (hns : 1 ≤ num_simulations) (hnp : 1 ≤ num_points) :
    monte_carlo_bond_pricing x r0 kappa theta sigma T num_simulations
        num_points zz =
      x * ((∑ s ∈ Finset.range num_simulations,
        Real.exp (-((∑ i ∈ Finset.range (num_points + 1),
          vasicekRate r0 kappa theta sigma (T / (num_points : ℝ)) (zz s) i) *
            (T / (num_points : ℝ))))) / (num_simulations : ℝ)) ∧
    (∀ s : ℕ,
      vasicekRate r0 kappa theta sigma (T / (num_points : ℝ)) (zz s) 0 = r0) ∧
    (∀ s i : ℕ,
      vasicekRate r0 kappa theta sigma (T / (num_points : ℝ)) (zz s) (i + 1) =
        vasicekRate r0 kappa theta sigma (T / (num_points : ℝ)) (zz s) i +
          (kappa * (theta -
              vasicekRate r0 kappa theta sigma (T / (num_points : ℝ)) (zz s) i)
              * (T / (num_points : ℝ)) +
            sigma * Real.sqrt (T / (num_points : ℝ)) * zz s i)) ∧
    0 < monte_carlo_bond_pricing x r0 kappa theta sigma T num_simulations
      num_points zz := by
  refine ⟨rfl, fun s => rfl, fun s i => rfl, ?_⟩
  unfold monte_carlo_bond_pricing
  have hsum : 0 < ∑ s ∈ Finset.range num_simulations,
      Real.exp (-((∑ i ∈ Finset.range (num_points + 1),
        vasicekRate r0 kappa theta sigma (T / (num_points : ℝ)) (zz s) i) *
          (T / (num_points : ℝ)))) :=
    Finset.sum_pos (fun s _ => Real.exp_pos _)
      (Finset.nonempty_range_iff.mpr (by omega))
  have hden : (0 : ℝ) < (num_simulations : ℝ) := by
    exact_mod_cast Nat.lt_of_lt_of_le Nat.zero_lt_one hns
  exact mul_pos hx (div_pos hsum hden)

/-- Witness for C7 at x = 1000, r0 = 1/100, kappa = 1/10, theta = 2/100,
sigma = 1/100, T = 1, one simulation, one point, zz ≡ 0, taking the
r0-start at s = 0 and the recurrence step at s = 0, i = 0. -/
theorem monte_carlo_bond_pricing_positive_witness :
    vasicekRate (1 / 100) (1 / 10) (2 / 100) (1 / 100) (1 / ((1 : ℕ) : ℝ))
      (fun _ => 0) 0 = 1 / 100 ∧
    vasicekRate (1 / 100) (1 / 10) (2 / 100) (1 / 100) (1 / ((1 : ℕ) : ℝ))
        (fun _ => 0) 1 =
      vasicekRate (1 / 100) (1 / 10) (2 / 100) (1 / 100) (1 / ((1 : ℕ) : ℝ))
          (fun _ => 0) 0 +
        (1 / 10 * (2 / 100 -
            vasicekRate (1 / 100) (1 / 10) (2 / 100) (1 / 100)
              (1 / ((1 : ℕ) : ℝ)) (fun _ => 0) 0) * (1 / ((1 : ℕ) : ℝ)) +
          1 / 100 * Real.sqrt (1 / ((1 : ℕ) : ℝ)) * 0) ∧
    0 < monte_carlo_bond_pricing 1000 (1 / 100) (1 / 10) (2 / 100) (1 / 100)
      1 1 1 (fun _ _ => 0) := by
  have h := monte_carlo_bond_pricing_positive 1000 (1 / 100) (1 / 10)
    (2 / 100) (1 / 100) 1 1 1 (fun _ _ => 0) (by norm_num) (by norm_num)
    (by norm_num)
  exact ⟨h.2.1 0, h.2.2.1 0 0, h.2.2.2⟩

/-- Embedding of numpy.percentile with the default linear interpolation on an
already sorted list a: position = q/100 * (len - 1), k = floor(position), and
the result is a[k] + (position - k) * (a[k+1] - a[k]) (clipping the upper
index to a[k] at the top end, where the fractional part is 0 anyway). -/
noncomputable def np_percentile (a : List ℝ) (q : ℝ) : ℝ :=
  a.getD (⌊q / 100 * ((a.length : ℝ) - 1)⌋.toNat) 0 +
    (q / 100 * ((a.length : ℝ) - 1) -
      ((⌊q / 100 * ((a.length : ℝ) - 1)⌋.toNat : ℕ) : ℝ)) *
      (a.getD (⌊q / 100 * ((a.length : ℝ) - 1)⌋.toNat + 1)
          (a.getD (⌊q / 100 * ((a.length : ℝ) - 1)⌋.toNat) 0) -
        a.getD (⌊q / 100 * ((a.length : ℝ) - 1)⌋.toNat) 0)

/-- Embedding of ValueAtRiskMonteCarlo.simulation (risk/var.py and
12_valueAtRiskMonteCarlo.py): draw iterations terminal values
S * exp((mu - sigma^2/2) * n + sigma * sqrt(n) * z_i), sort them, take the
(1-c)*100 percentile, and return S minus that percentile. -/
noncomputable def ValueAtRiskMonteCarlo.simulation (S mu sigma c : ℝ)
    (n iterations : ℕ) (z : ℕ → ℝ) : ℝ :=
  S - np_percentile
    (((List.range iterations).map fun i =>
      S * Real.exp ((mu - 0.5 * sigma ^ 2) * (n : ℝ) +
        sigma * Real.sqrt (n : ℝ) * z i)).insertionSort (· ≤ ·))
    ((1 - c) * 100)

/-- Counterexample for C5: with S = 1, mu = 1, sigma = 0, c = 1/2 (a valid
confidence in (0,1)), n = 1, iterations = 1 and draws z ≡ 0, the single
terminal value is exp(1) > S, so the returned value S - percentile is
negative, refuting the claimed nonnegativity. -/
theorem var_mc_negative_counterexample :
    ((0 : ℝ) < 1 / 2 ∧ (1 / 2 : ℝ) < 1) ∧
    ValueAtRiskMonteCarlo.simulation 1 1 0 (1 / 2) 1 1 (fun _ => 0) < 0 := by
  refine ⟨⟨by norm_num, by norm_num⟩, ?_⟩
  unfold ValueAtRiskMonteCarlo.simulation np_percentile
  norm_num [List.range_succ, List.insertionSort, List.orderedInsert]

/-- C5 amended: ValueAtRiskMonteCarlo.simulation returns S minus the
(1-c)*100 percentile of the sorted ensemble of terminal values
S * exp((mu - sigma^2/2) * n + sigma * sqrt(n) * z_i); the result is not
guaranteed nonnegative: it is nonnegative exactly when that percentile does
not exceed S. -/
theorem var_mc_simulation_formula (S mu sigma c : ℝ) (n iterations : ℕ)
    (z : ℕ → ℝ) (hc : 0 < c) (hc1 : c < 1) (hn : 1 ≤ n)
    (hiter : 1 ≤ iterations) :
    ValueAtRiskMonteCarlo.simulation S mu sigma c n iterations z =
      S - np_percentile (((List.range iterations).map fun i =>
        S * Real.exp ((mu - 0.5 * sigma ^ 2) * (n : ℝ) +
          sigma * Real.sqrt (n : ℝ) * z i)).insertionSort (· ≤ ·))
        ((1 - c) * 100) ∧
    (0 ≤ ValueAtRiskMonteCarlo.simulation S mu sigma c n iterations z ↔
      np_percentile (((List.range iterations).map fun i =>
        S * Real.exp ((mu - 0.5 * sigma ^ 2) * (n : ℝ) +
          sigma * Real.sqrt (n : ℝ) * z i)).insertionSort (· ≤ ·))
        ((1 - c) * 100) ≤ S) := by
  refine ⟨rfl, ?_⟩
  unfold ValueAtRiskMonteCarlo.simulation
  exact sub_nonneg

/-- Witness for C5 amended at S = 1, mu = 0, sigma = 0, c = 1/2, n = 1,
iterations = 1, z ≡ 0. -/
theorem var_mc_simulation_formula_witness :
    ValueAtRiskMonteCarlo.simulation 1 0 0 (1 / 2) 1 1 (fun _ => 0) =
      1 - np_percentile (((List.range 1).map fun i =>
        1 * Real.exp ((0 - 0.5 * 0 ^ 2) * ((1 : ℕ) : ℝ) +
          0 * Real.sqrt ((1 : ℕ) : ℝ) * 0)).insertionSort (· ≤ ·))
        ((1 - 1 / 2) * 100) ∧
    (0 ≤ ValueAtRiskMonteCarlo.simulation 1 0 0 (1 / 2) 1 1 (fun _ => 0) ↔
      np_percentile (((List.range 1).map fun i =>
        1 * Real.exp ((0 - 0.5 * 0 ^ 2) * ((1 : ℕ) : ℝ) +
          0 * Real.sqrt ((1 : ℕ) : ℝ) * 0)).insertionSort (· ≤ ·))
        ((1 - 1 / 2) * 100) ≤ 1) :=
  var_mc_simulation_formula 1 0 0 (1 / 2) 1 1 (fun _ => 0) (by norm_num)
    (by norm_num) (by norm_num) (by norm_num)
